import Mathlib

/-!
Verification of the recipe/tag reconciliation logic of a recipe-management
backend (Django REST Framework application).  The serializer logic is embedded
from `app/recipe/serializers.py`; the data model (`Tag`, `Recipe`) and the
framework primitives it relies on (`get_or_create`, the many-to-many relation
operations `add` / `clear`, field validation) are modelled from the
specification, since `core/models.py` is not part of the provided sources.
-/

namespace RecipeApp

/-- Modelled from the spec: the `Tag` model from `core/models.py` (absent from
the provided sources) — "Tag: name (string), owning user. Invariant:
(user, name) pairs are unique".  Users are represented by their numeric id. -/
structure Tag where
  id : Nat
  user : Nat
  name : String
deriving DecidableEq, Repr

/-- Modelled from the spec: the `Recipe` model from `core/models.py` (absent
from the provided sources) — "Recipe: title, time estimate (integer minutes),
price (fixed-point decimal), optional link (URL string), optional long-form
description, owning user, and an unordered set of owned Tags (many-to-many)".
The price is kept as its decimal string; the many-to-many relation is the list
of associated `Tag` records (membership with set semantics). -/
structure Recipe where
  id : Nat
  user : Nat
  title : String
  time_minutes : Nat
  price : String
  link : String
  description : String
  tags : List Tag
deriving DecidableEq, Repr

/-- Modelled from the spec: the Tag Registry — the table of persisted `Tag`
rows together with the next fresh primary key. -/
structure DB where
  tags : List Tag
  nextTagId : Nat
deriving DecidableEq, Repr

/-- Well-formedness of the Tag Registry: rows are distinct, primary keys are
below the fresh-key counter, and "(user, name) pairs are unique — no duplicate
tag names per user" (spec section 3, enforced by the persistence layer). -/
def DB.WF (db : DB) : Prop :=
  db.tags.Nodup ∧
  (∀ t ∈ db.tags, t.id < db.nextTagId) ∧
  (∀ t₁ ∈ db.tags, ∀ t₂ ∈ db.tags, t₁.user = t₂.user → t₁.name = t₂.name → t₁ = t₂)

instance (db : DB) : Decidable db.WF := by
  unfold DB.WF
  infer_instance

/-- The row filter used by `Tag.objects.get_or_create(user=.., name=..)`. -/
def tagMatch (u : Nat) (n : String) (t : Tag) : Bool :=
  t.user == u && t.name == n

/-- Modelled from the spec: `Tag.objects.get_or_create(user=recipe.user, **tag)`
(serializers.py lines 31–34; the ORM call itself is framework code) — "If a Tag
with this (user, name) exists, return it; otherwise create and return a new
one" (spec section 4.1). -/
def getOrCreateTag (db : DB) (u : Nat) (n : String) : Tag × DB :=
  match db.tags.find? (tagMatch u n) with
  | some t => (t, db)
  | none =>
      let t : Tag := ⟨db.nextTagId, u, n⟩
      (t, ⟨db.tags ++ [t], db.nextTagId + 1⟩)

/-- Modelled from the spec: `recipe.tags.add(tag_obj)` — adding to a
many-to-many relation is idempotent ("duplicates in the request collapse
naturally since relation membership is a set"). -/
def relAdd (rel : List Tag) (t : Tag) : List Tag :=
  if t ∈ rel then rel else rel ++ [t]

/-- Embeds `RecipeSerializer._get_or_create_tags` (serializers.py lines 28–35):
for each validated tag name, resolve it through `get_or_create` under the
recipe's owner and add the resolved record to the recipe's tag relation. -/
def getOrCreateTags (db : DB) (names : List String) (recipe : Recipe) :
    Recipe × DB :=
  match names with
  | [] => (recipe, db)
  | n :: rest =>
      let res := getOrCreateTag db recipe.user n
      getOrCreateTags res.2 rest { recipe with tags := relAdd recipe.tags res.1 }

/-- Validated input of `RecipeSerializer.create`: the writable `Meta.fields`
(serializers.py line 25) minus the read-only `id`, plus the declared nested
`tags` field; the recipe model's remaining scalar fields carry their model
defaults.  `tags = none` stands for an absent key in `validated_data`. -/
structure CreateInput where
  title : String
  time_minutes : Nat
  price : String
  link : String
  description : String
  tags : Option (List String)
deriving DecidableEq, Repr

/-- Embeds `RecipeSerializer.create` (serializers.py lines 37–42):
`tags = validated_data.pop("tags", [])`, create the recipe row from the
remaining fields, then run the resolve-and-attach loop. -/
def create (db : DB) (user newId : Nat) (vd : CreateInput) : Recipe × DB :=
  let names := vd.tags.getD []
  getOrCreateTags db names
    { id := newId, user := user, title := vd.title,
      time_minutes := vd.time_minutes, price := vd.price, link := vd.link,
      description := vd.description, tags := [] }

/-- Validated input of `RecipeSerializer.update`: a field set to `none` is a
key absent from `validated_data`, one set to `some v` is a present key.
`description` is writable only through `RecipeDetailSerializer`, which
inherits this `update`. -/
structure UpdateInput where
  title : Option String
  time_minutes : Option Nat
  price : Option String
  link : Option String
  description : Option String
  tags : Option (List String)
deriving DecidableEq, Repr

/-- Embeds `RecipeSerializer.update` (serializers.py lines 44–53):
`tags = validated_data.pop("tags", None)`; when present, `instance.tags.clear()`
then the resolve-and-attach loop; then every remaining validated field is
assigned onto the instance with `setattr` and the instance is saved. -/
def update (db : DB) (inst : Recipe) (vd : UpdateInput) : Recipe × DB :=
  let res :=
    match vd.tags with
    | some names => getOrCreateTags db names { inst with tags := [] }
    | none => (inst, db)
  ({ res.1 with
      title := vd.title.getD res.1.title,
      time_minutes := vd.time_minutes.getD res.1.time_minutes,
      price := vd.price.getD res.1.price,
      link := vd.link.getD res.1.link,
      description := vd.description.getD res.1.description }, res.2)

/-- Raw (pre-validation) tag payload object: a client may send an `id`
alongside the `name`, but `id` is declared in `read_only_fields`
(serializers.py line 15). -/
structure TagInput where
  id : Option Nat
  name : String
deriving DecidableEq, Repr

/-- Modelled from the spec: validation of one nested tag object under
`TagSerializer` — `fields = ["id", "name"]`, `read_only_fields = ["id"]`
(serializers.py lines 12–15), so the validated data of a tag payload is its
`name` alone (the framework drops read-only fields from input). -/
def validated_tag (t : TagInput) : String :=
  t.name

/-- `required=True` on the declared nested field
`tags = TagSerializer(many=True, required=True)` (serializers.py line 21). -/
def tags_required : Bool := true

/-- Raw (pre-validation) recipe create payload; `tags = none` is an omitted
`tags` key. -/
structure RawRecipeInput where
  title : String
  time_minutes : Nat
  price : String
  link : String
  description : String
  tags : Option (List TagInput)
deriving DecidableEq, Repr

/-- Modelled from the spec: framework validation of a create payload against
`RecipeSerializer` — a declared field with `required=True` that is absent from
the payload fails validation with a field-level error (HTTP 400); otherwise the
nested tag objects are validated (dropping their read-only `id`). -/
def validate_create (i : RawRecipeInput) : Except String CreateInput :=
  match i.tags with
  | none =>
      if tags_required then
        Except.error "tags: This field is required."
      else
        Except.ok ⟨i.title, i.time_minutes, i.price, i.link, i.description, none⟩
  | some ts =>
      Except.ok ⟨i.title, i.time_minutes, i.price, i.link, i.description,
        some (ts.map validated_tag)⟩

/-- JSON-like values of the serialized responses. -/
inductive JValue where
  | s (v : String)
  | n (v : Nat)
  | arr (vs : List JValue)
  | obj (fs : List (String × JValue))
deriving Repr

/-- The keys of a serialized object. -/
def objKeys : JValue → List String
  | JValue.obj fs => fs.map Prod.fst
  | _ => []

/-- `TagSerializer.Meta.fields` (serializers.py line 14). -/
def tag_fields : List String := ["id", "name"]

/-- `RecipeSerializer.Meta.fields` (serializers.py line 25). -/
def recipe_fields : List String :=
  ["id", "title", "time_minutes", "price", "link", "tags"]

/-- `RecipeDetailSerializer.Meta.fields = RecipeSerializer.Meta.fields +
["description"]` (serializers.py line 60). -/
def recipe_detail_fields : List String := recipe_fields ++ ["description"]

/-- Modelled from the spec: the serialized representation of a tag,
`{id, name}` (spec section 6), generated by the framework from
`TagSerializer.Meta`. -/
def serialize_tag (t : Tag) : JValue :=
  JValue.obj [("id", JValue.n t.id), ("name", JValue.s t.name)]

/-- Modelled from the spec: the summary (list) serialization of a recipe,
`{id, title, time_minutes, price, link, tags:[{id,name}]}` (spec section 6),
generated by the framework from `RecipeSerializer.Meta`. -/
def serialize_recipe (r : Recipe) : JValue :=
  JValue.obj [("id", JValue.n r.id), ("title", JValue.s r.title),
    ("time_minutes", JValue.n r.time_minutes), ("price", JValue.s r.price),
    ("link", JValue.s r.link), ("tags", JValue.arr (r.tags.map serialize_tag))]

/-- Modelled from the spec: the detail serialization of a recipe — the summary
fields plus `description`, generated by the framework from
`RecipeDetailSerializer.Meta`. -/
def serialize_recipe_detail (r : Recipe) : JValue :=
  JValue.obj [("id", JValue.n r.id), ("title", JValue.s r.title),
    ("time_minutes", JValue.n r.time_minutes), ("price", JValue.s r.price),
    ("link", JValue.s r.link), ("tags", JValue.arr (r.tags.map serialize_tag)),
    ("description", JValue.s r.description)]

/-- A recipe's tags all belong to the recipe's owner (spec section 3
invariant). -/
def TagsOwned (r : Recipe) : Prop :=
  ∀ t ∈ r.tags, t.user = r.user

instance (r : Recipe) : Decidable (TagsOwned r) := by
  unfold TagsOwned
  infer_instance

/-- Whether framework validation accepted a payload. -/
def isAccepted : Except String CreateInput → Bool
  | Except.ok _ => true
  | Except.error _ => false

/-! ### Concrete fixtures (mirroring the repository's test data) -/

def tagBreakfast : Tag := ⟨0, 7, "breakfast"⟩

def tagLunch : Tag := ⟨1, 7, "lunch"⟩

def tagVeg : Tag := ⟨2, 7, "veg"⟩

def dbW : DB := ⟨[tagBreakfast, tagLunch], 2⟩

def rW : Recipe :=
  ⟨10, 7, "Sample Recipe", 12, "5.25", "http://example.com/recipe",
    "sample description", [tagBreakfast]⟩

def vdW : UpdateInput := ⟨none, none, none, none, none, some ["lunch"]⟩

def vdW2 : UpdateInput :=
  ⟨none, none, none, some "http://example.com/updated", none, none⟩

def vdW3 : CreateInput := ⟨"t", 5, "1.00", "", "", some ["veg", "veg"]⟩

def vdW3u : UpdateInput := ⟨none, none, none, none, none, some ["veg", "veg"]⟩

def rawNoTags : RawRecipeInput := ⟨"Chocolate Cake", 30, "10.00", "", "", none⟩

def rawEmptyTags : RawRecipeInput :=
  ⟨"Chocolate Cake", 30, "10.00", "", "", some []⟩

def vdEmptyTags : CreateInput := ⟨"Chocolate Cake", 30, "10.00", "", "", some []⟩

/-! ### Lemmas about the relation and the registry primitives -/

theorem mem_relAdd {rel : List Tag} {t a : Tag} :
    a ∈ relAdd rel t ↔ a ∈ rel ∨ a = t := by
  unfold relAdd
  split
  · constructor
    · exact Or.inl
    · rintro (h | rfl)
      · exact h
      · assumption
  · simp [List.mem_append]

theorem relAdd_nodup {rel : List Tag} {t : Tag} (h : rel.Nodup) :
    (relAdd rel t).Nodup := by
  unfold relAdd
  split
  · exact h
  · rename_i hne
    simp [List.nodup_append, h, hne]

theorem tagMatch_iff {u : Nat} {n : String} {t : Tag} :
    tagMatch u n t = true ↔ t.user = u ∧ t.name = n := by
  simp [tagMatch]

theorem gocTag_user (db : DB) (u : Nat) (n : String) :
    (getOrCreateTag db u n).1.user = u := by
  cases h : db.tags.find? (tagMatch u n) with
  | none => simp [getOrCreateTag, h]
  | some t =>
      have := tagMatch_iff.mp (List.find?_some h)
      simp [getOrCreateTag, h, this.1]

theorem gocTag_name (db : DB) (u : Nat) (n : String) :
    (getOrCreateTag db u n).1.name = n := by
  cases h : db.tags.find? (tagMatch u n) with
  | none => simp [getOrCreateTag, h]
  | some t =>
      have := tagMatch_iff.mp (List.find?_some h)
      simp [getOrCreateTag, h, this.2]

theorem gocTag_mem (db : DB) (u : Nat) (n : String) :
    (getOrCreateTag db u n).1 ∈ (getOrCreateTag db u n).2.tags := by
  cases h : db.tags.find? (tagMatch u n) with
  | none => simp [getOrCreateTag, h]
  | some t =>
      have := List.mem_of_find?_eq_some h
      simp [getOrCreateTag, h, this]

theorem gocTag_sub (db : DB) (u : Nat) (n : String) :
    db.tags ⊆ (getOrCreateTag db u n).2.tags := by
  cases h : db.tags.find? (tagMatch u n) with
  | none =>
      intro a ha
      simp [getOrCreateTag, h, List.mem_append, ha]
  | some t => simp [getOrCreateTag, h, List.Subset.refl]

theorem gocTag_WF {db : DB} (hWF : db.WF) (u : Nat) (n : String) :
    (getOrCreateTag db u n).2.WF := by
  obtain ⟨hnd, hid, huniq⟩ := hWF
  cases h : db.tags.find? (tagMatch u n) with
  | some t => simpa [getOrCreateTag, h] using ⟨hnd, hid, huniq⟩
  | none =>
      have hnomatch : ∀ a ∈ db.tags, ¬(a.user = u ∧ a.name = n) := by
        intro a ha hcontra
        exact List.find?_eq_none.mp h a ha (tagMatch_iff.mpr hcontra)
      refine ⟨?_, ?_, ?_⟩
      · simp only [getOrCreateTag, h]
        rw [List.nodup_append]
        refine ⟨hnd, List.nodup_singleton _, ?_⟩
        intro a ha hb
        simp only [List.mem_singleton] at hb
        subst hb
        exact absurd (hid _ ha) (by simp)
      · simp only [getOrCreateTag, h]
        intro t ht
        rcases List.mem_append.mp ht with ht | ht
        · exact Nat.lt_succ_of_lt (hid t ht)
        · simp only [List.mem_singleton] at ht
          subst ht
          exact Nat.lt_succ_self _
      · simp only [getOrCreateTag, h]
        intro t₁ ht₁ t₂ ht₂ hu hn
        rcases List.mem_append.mp ht₁ with ht₁ | ht₁ <;>
          rcases List.mem_append.mp ht₂ with ht₂ | ht₂
        · exact huniq t₁ ht₁ t₂ ht₂ hu hn
        · simp only [List.mem_singleton] at ht₂
          subst ht₂
          exact absurd ⟨hu, hn⟩ (hnomatch t₁ ht₁)
        · simp only [List.mem_singleton] at ht₁
          subst ht₁
          exact absurd ⟨hu.symm, hn.symm⟩ (hnomatch t₂ ht₂)
        · simp only [List.mem_singleton] at ht₁ ht₂
          rw [ht₁, ht₂]

theorem gocTag_found {db : DB} (hWF : db.WF) {u : Nat} {n : String} {t : Tag}
    (ht : t ∈ db.tags) (hu : t.user = u) (hn : t.name = n) :
    getOrCreateTag db u n = (t, db) := by
  cases h : db.tags.find? (tagMatch u n) with
  | none => exact absurd (tagMatch_iff.mpr ⟨hu, hn⟩) (List.find?_eq_none.mp h t ht)
  | some t' =>
      have ht' := List.mem_of_find?_eq_some h
      have hm := tagMatch_iff.mp (List.find?_some h)
      have : t' = t := hWF.2.2 t' ht' t ht (hm.1.trans hu.symm) (hm.2.trans hn.symm)
      simp [getOrCreateTag, h, this]

theorem gocTag_not_found {db : DB} {u : Nat} {n : String}
    (h : ∀ t ∈ db.tags, ¬(t.user = u ∧ t.name = n)) :
    getOrCreateTag db u n =
      (⟨db.nextTagId, u, n⟩,
        ⟨db.tags ++ [⟨db.nextTagId, u, n⟩], db.nextTagId + 1⟩) := by
  have hnone : db.tags.find? (tagMatch u n) = none :=
    List.find?_eq_none.mpr fun t ht hm => h t ht (tagMatch_iff.mp hm)
  simp [getOrCreateTag, hnone]

/-! ### Lemmas about the resolve-and-attach loop -/

theorem gocTags_fields (names : List String) (db : DB) (r : Recipe) :
    (getOrCreateTags db names r).1 =
      { r with tags := (getOrCreateTags db names r).1.tags } := by
  induction names generalizing db r with
  | nil => rfl
  | cons n rest ih =>
      simpa only [getOrCreateTags] using
        ih (getOrCreateTag db r.user n).2
          { r with tags := relAdd r.tags (getOrCreateTag db r.user n).1 }

theorem gocTags_user (names : List String) (db : DB) (r : Recipe) :
    (getOrCreateTags db names r).1.user = r.user := by
  conv_lhs => rw [gocTags_fields names db r]

theorem gocTags_db_sub (names : List String) (db : DB) (r : Recipe) :
    db.tags ⊆ (getOrCreateTags db names r).2.tags := by
  induction names generalizing db r with
  | nil => exact List.Subset.refl _
  | cons n rest ih =>
      simp only [getOrCreateTags]
      exact fun a ha =>
        ih (getOrCreateTag db r.user n).2 _ (gocTag_sub db r.user n ha)

theorem gocTags_WF {db : DB} (hWF : db.WF) (names : List String) (r : Recipe) :
    (getOrCreateTags db names r).2.WF := by
  induction names generalizing db r with
  | nil => exact hWF
  | cons n rest ih =>
      simp only [getOrCreateTags]
      exact ih (gocTag_WF hWF r.user n) _

theorem gocTags_rel_mono (names : List String) (db : DB) (r : Recipe) :
    r.tags ⊆ (getOrCreateTags db names r).1.tags := by
  induction names generalizing db r with
  | nil => exact List.Subset.refl _
  | cons n rest ih =>
      simp only [getOrCreateTags]
      exact fun a ha =>
        ih (getOrCreateTag db r.user n).2 _ (mem_relAdd.mpr (Or.inl ha))

theorem gocTags_rel_nodup (names : List String) (db : DB) (r : Recipe)
    (h : r.tags.Nodup) : (getOrCreateTags db names r).1.tags.Nodup := by
  induction names generalizing db r with
  | nil => exact h
  | cons n rest ih =>
      simp only [getOrCreateTags]
      exact ih (getOrCreateTag db r.user n).2 _ (relAdd_nodup h)

theorem gocTags_mem_fwd (names : List String) (db : DB) (r : Recipe) :
    ∀ a ∈ (getOrCreateTags db names r).1.tags,
      a ∈ r.tags ∨
        (a ∈ (getOrCreateTags db names r).2.tags ∧ a.user = r.user ∧
          a.name ∈ names) := by
  induction names generalizing db r with
  | nil => exact fun a ha => Or.inl ha
  | cons n rest ih =>
      intro a ha
      simp only [getOrCreateTags] at ha ⊢
      rcases ih (getOrCreateTag db r.user n).2
          { r with tags := relAdd r.tags (getOrCreateTag db r.user n).1 }
          a ha with h | ⟨hdb, hu, hn⟩
      · rcases mem_relAdd.mp h with h | rfl
        · exact Or.inl h
        · refine Or.inr ⟨?_, ?_, ?_⟩
          · exact gocTags_db_sub rest _ _ (gocTag_mem db r.user n)
          · exact gocTag_user db r.user n
          · simp [gocTag_name db r.user n]
      · exact Or.inr ⟨hdb, hu, by simp [hn]⟩

theorem gocTags_mem_bwd {db : DB} (hWF : db.WF) (names : List String)
    (r : Recipe) :
    ∀ a ∈ (getOrCreateTags db names r).2.tags, a.user = r.user →
      a.name ∈ names → a ∈ (getOrCreateTags db names r).1.tags := by
  induction names generalizing db r with
  | nil => simp
  | cons n rest ih =>
      intro a hdb hu hn
      simp only [getOrCreateTags] at hdb ⊢
      rcases List.mem_cons.mp hn with hn | hn
      · -- the resolved record for `n` is the unique (user, n) row
        have ht₁ : (getOrCreateTag db r.user n).1 ∈
            (getOrCreateTags (getOrCreateTag db r.user n).2 rest
              { r with tags := relAdd r.tags (getOrCreateTag db r.user n).1 }).2.tags :=
          gocTags_db_sub rest _ _ (gocTag_mem db r.user n)
        have hWF' : (getOrCreateTags (getOrCreateTag db r.user n).2 rest
            { r with tags := relAdd r.tags (getOrCreateTag db r.user n).1 }).2.WF :=
          gocTags_WF (gocTag_WF hWF r.user n) rest _
        have ha : a = (getOrCreateTag db r.user n).1 :=
          hWF'.2.2 a hdb _ ht₁ (by rw [hu, gocTag_user])
            (by rw [hn, gocTag_name])
        refine gocTags_rel_mono rest _ _ ?_
        exact mem_relAdd.mpr (Or.inr ha)
      · exact ih (gocTag_WF hWF r.user n) _ a hdb hu hn

theorem gocTags_attaches (names : List String) (db : DB) (r : Recipe) :
    ∀ n ∈ names, ∃ a ∈ (getOrCreateTags db names r).1.tags,
      a.user = r.user ∧ a.name = n := by
  induction names generalizing db r with
  | nil => simp
  | cons n rest ih =>
      intro n' hn'
      simp only [getOrCreateTags]
      rcases List.mem_cons.mp hn' with rfl | hn'
      · refine ⟨(getOrCreateTag db r.user n').1, ?_, gocTag_user db r.user n',
          gocTag_name db r.user n'⟩
        exact gocTags_rel_mono rest _ _ (mem_relAdd.mpr (Or.inr rfl))
      · exact ih (getOrCreateTag db r.user n).2 _ n' hn'

theorem WF_filter_length_le_one {db : DB} (hWF : db.WF) (u : Nat)
    (nm : String) : (db.tags.filter (tagMatch u nm)).length ≤ 1 := by
  cases hl : db.tags.filter (tagMatch u nm) with
  | nil => simp
  | cons a tl =>
      cases tl with
      | nil => simp
      | cons b tl₂ =>
          exfalso
          have ha : a ∈ db.tags.filter (tagMatch u nm) := by rw [hl]; simp
          have hb : b ∈ db.tags.filter (tagMatch u nm) := by rw [hl]; simp
          have ha' := List.mem_filter.mp ha
          have hb' := List.mem_filter.mp hb
          have hau := tagMatch_iff.mp ha'.2
          have hbu := tagMatch_iff.mp hb'.2
          have hab : a = b :=
            hWF.2.2 a ha'.1 b hb'.1 (hau.1.trans hbu.1.symm)
              (hau.2.trans hbu.2.symm)
          have hnd : (db.tags.filter (tagMatch u nm)).Nodup :=
            hWF.1.filter _
          rw [hl, hab] at hnd
          simp at hnd

theorem gocTags_dedup {db : DB} (hWF : db.WF) (names : List String)
    (r : Recipe) (hnd : r.tags.Nodup) (nm : String) (hmem : nm ∈ names) :
    ((getOrCreateTags db names r).2.tags.filter (tagMatch r.user nm)).length ≤ 1 ∧
      ∃ t ∈ (getOrCreateTags db names r).1.tags, t.user = r.user ∧
        t.name = nm ∧ (getOrCreateTags db names r).1.tags.count t = 1 := by
  refine ⟨WF_filter_length_le_one (gocTags_WF hWF names r) r.user nm, ?_⟩
  obtain ⟨t, ht, hu, hn⟩ := gocTags_attaches names db r nm hmem
  exact ⟨t, ht, hu, hn,
    List.count_eq_one_of_mem (gocTags_rel_nodup names db r hnd) ht⟩

/-! ### Claim theorems -/

/-- C1: for every recipe update (full or partial) whose validated input
includes a tags field, even an empty list, the recipe's tag relation
afterwards equals exactly the set of Tag records resolved (via get-or-create
under the recipe's owner) from the names in that list: every previously
associated tag not named in the request is detached, and every named tag is
attached. -/
theorem update_with_tags_replaces_relation (db : DB) (r : Recipe)
    (names : List String) (vd : UpdateInput) (hWF : db.WF)
    (h : vd.tags = some names) (t : Tag) :
    t ∈ (update db r vd).1.tags ↔
      t ∈ (update db r vd).2.tags ∧ t.user = r.user ∧ t.name ∈ names := by
  simp only [update, h]
  constructor
  · intro ht
    rcases gocTags_mem_fwd names db { r with tags := [] } t ht with
      h0 | ⟨hdb, hu, hn⟩
    · simp at h0
    · exact ⟨hdb, hu, hn⟩
  · rintro ⟨hdb, hu, hn⟩
    exact gocTags_mem_bwd hWF names { r with tags := [] } t hdb hu hn

theorem update_with_tags_replaces_relation_witness :
    dbW.WF ∧ vdW.tags = some ["lunch"] ∧
      (tagLunch ∈ (update dbW rW vdW).1.tags ↔
        tagLunch ∈ (update dbW rW vdW).2.tags ∧ tagLunch.user = rW.user ∧
          tagLunch.name ∈ ["lunch"]) :=
  ⟨by decide, rfl,
    update_with_tags_replaces_relation dbW rW ["lunch"] vdW (by decide) rfl
      tagLunch⟩

/-- C2: for every recipe update (full or partial) whose validated input does
not contain a tags field, the recipe's tag relation after the update is
identical to its tag relation before the update. -/
theorem update_without_tags_preserves_relation (db : DB) (r : Recipe)
    (vd : UpdateInput) (h : vd.tags = none) :
    (update db r vd).1.tags = r.tags ∧ (update db r vd).2 = db := by
  simp [update, h]

theorem update_without_tags_preserves_relation_witness :
    vdW2.tags = none ∧ (update dbW rW vdW2).1.tags = rW.tags ∧
      (update dbW rW vdW2).2 = dbW :=
  ⟨rfl, update_without_tags_preserves_relation dbW rW vdW2 rfl⟩

/-- C3: for every create or update request whose tags list contains the same
tag name more than once, the reconciliation creates at most one Tag record for
that (user, name) and the recipe's tag relation contains that tag exactly once
afterwards. -/
theorem duplicate_tag_names_collapse (db : DB) (u newId : Nat)
    (vd : CreateInput) (r : Recipe) (vd' : UpdateInput) (names : List String)
    (nm : String) (hWF : db.WF) (hvd : vd.tags = some names)
    (hvd' : vd'.tags = some names) (hdup : 2 ≤ names.count nm) :
    (((create db u newId vd).2.tags.filter (tagMatch u nm)).length ≤ 1 ∧
      ∃ t ∈ (create db u newId vd).1.tags, t.user = u ∧ t.name = nm ∧
        (create db u newId vd).1.tags.count t = 1) ∧
    (((update db r vd').2.tags.filter (tagMatch r.user nm)).length ≤ 1 ∧
      ∃ t ∈ (update db r vd').1.tags, t.user = r.user ∧ t.name = nm ∧
        (update db r vd').1.tags.count t = 1) := by
  have hmem : nm ∈ names := by
    by_contra hc
    rw [List.count_eq_zero.mpr hc] at hdup
    omega
  constructor
  · have h := gocTags_dedup hWF names
      (⟨newId, u, vd.title, vd.time_minutes, vd.price, vd.link,
        vd.description, []⟩ : Recipe) (by simp) nm hmem
    simpa [create, hvd] using h
  · have h := gocTags_dedup hWF names ({ r with tags := [] }) (by simp) nm hmem
    simpa [update, hvd'] using h

theorem duplicate_tag_names_collapse_witness :
    dbW.WF ∧ vdW3.tags = some ["veg", "veg"] ∧
      vdW3u.tags = some ["veg", "veg"] ∧
      2 ≤ (["veg", "veg"] : List String).count "veg" ∧
      ((((create dbW 7 10 vdW3).2.tags.filter (tagMatch 7 "veg")).length ≤ 1 ∧
        ∃ t ∈ (create dbW 7 10 vdW3).1.tags, t.user = 7 ∧ t.name = "veg" ∧
          (create dbW 7 10 vdW3).1.tags.count t = 1) ∧
      (((update dbW rW vdW3u).2.tags.filter (tagMatch rW.user "veg")).length ≤ 1 ∧
        ∃ t ∈ (update dbW rW vdW3u).1.tags, t.user = rW.user ∧
          t.name = "veg" ∧ (update dbW rW vdW3u).1.tags.count t = 1)) :=
  ⟨by decide, rfl, rfl, by decide,
    duplicate_tag_names_collapse dbW 7 10 vdW3 rW vdW3u ["veg", "veg"] "veg"
      (by decide) rfl rfl (by decide)⟩

/-- C4: for every user and tag name, resolving a tag during reconciliation
returns the existing Tag when one with exactly that (user, name) pair exists
and otherwise creates and returns a new one; the name match is case-sensitive
and unnormalized, so resolving two names that differ (e.g. only in case)
yields two distinct Tag records, and repeated resolution of the same name
within one pass never creates duplicates. -/
theorem tag_resolution_get_or_create (db : DB) (u : Nat) (n : String)
    (hWF : db.WF) :
    (∀ t ∈ db.tags, t.user = u → t.name = n →
      getOrCreateTag db u n = (t, db)) ∧
    ((∀ t ∈ db.tags, ¬(t.user = u ∧ t.name = n)) →
      getOrCreateTag db u n =
        (⟨db.nextTagId, u, n⟩,
          ⟨db.tags ++ [⟨db.nextTagId, u, n⟩], db.nextTagId + 1⟩)) ∧
    (∀ n' : String, n ≠ n' →
      (getOrCreateTag (getOrCreateTag db u n).2 u n').1 ≠
        (getOrCreateTag db u n).1) ∧
    getOrCreateTag (getOrCreateTag db u n).2 u n =
      ((getOrCreateTag db u n).1, (getOrCreateTag db u n).2) := by
  refine ⟨fun t ht hu hn => gocTag_found hWF ht hu hn,
    fun h => gocTag_not_found h, ?_, ?_⟩
  · intro n' hne hcontra
    have h1 : (getOrCreateTag (getOrCreateTag db u n).2 u n').1.name = n' :=
      gocTag_name _ u n'
    rw [hcontra, gocTag_name db u n] at h1
    exact hne h1
  · exact gocTag_found (gocTag_WF hWF u n) (gocTag_mem db u n)
      (gocTag_user db u n) (gocTag_name db u n)

theorem tag_resolution_get_or_create_witness :
    dbW.WF ∧
    getOrCreateTag dbW 7 "breakfast" = (tagBreakfast, dbW) ∧
    (getOrCreateTag (getOrCreateTag dbW 7 "breakfast").2 7 "Breakfast").1 ≠
      (getOrCreateTag dbW 7 "breakfast").1 ∧
    getOrCreateTag (getOrCreateTag dbW 7 "breakfast").2 7 "breakfast" =
      ((getOrCreateTag dbW 7 "breakfast").1,
        (getOrCreateTag dbW 7 "breakfast").2) :=
  ⟨by decide,
    (tag_resolution_get_or_create dbW 7 "breakfast" (by decide)).1 tagBreakfast
      (by decide) rfl rfl,
    (tag_resolution_get_or_create dbW 7 "breakfast" (by decide)).2.2.1
      "Breakfast" (by decide),
    (tag_resolution_get_or_create dbW 7 "breakfast" (by decide)).2.2.2⟩

/-- C5: no recipe create or update operation ever deletes a Tag record:
clearing or replacing a recipe's tag associations removes only relation
memberships, and the set of Tag records in the registry after any
reconciliation is a superset of the set before it. -/
theorem tag_registry_never_shrinks (db : DB) (u newId : Nat)
    (vd : CreateInput) (r : Recipe) (vd' : UpdateInput) :
    db.tags ⊆ (create db u newId vd).2.tags ∧
    db.tags ⊆ (update db r vd').2.tags := by
  constructor
  · intro t ht
    simp only [create]
    exact gocTags_db_sub _ _ _ ht
  · intro t ht
    cases h : vd'.tags with
    | none => simpa [update, h] using ht
    | some names =>
        simp only [update, h]
        exact gocTags_db_sub _ _ _ ht

theorem tag_registry_never_shrinks_witness :
    tagBreakfast ∈ dbW.tags ∧
    tagBreakfast ∈ (create dbW 7 10 vdW3).2.tags ∧
    tagBreakfast ∈ (update dbW rW vdW).2.tags :=
  ⟨by decide,
    (tag_registry_never_shrinks dbW 7 10 vdW3 rW vdW).1 (by decide),
    (tag_registry_never_shrinks dbW 7 10 vdW3 rW vdW).2 (by decide)⟩

/-- C6: for every recipe and every create or update request, each tag attached
to the recipe by reconciliation is owned by the same user as the recipe; the
invariant that a recipe's tags all belong to the recipe's owner is preserved
by every operation. -/
theorem recipe_tags_owned_by_recipe_user (db : DB) (u newId : Nat)
    (vd : CreateInput) (r : Recipe) (vd' : UpdateInput) :
    TagsOwned (create db u newId vd).1 ∧
    (TagsOwned r → TagsOwned (update db r vd').1) := by
  constructor
  · intro t ht
    rcases gocTags_mem_fwd (vd.tags.getD []) db
        (⟨newId, u, vd.title, vd.time_minutes, vd.price, vd.link,
          vd.description, []⟩ : Recipe) t ht with h0 | ⟨_, hu, _⟩
    · simp at h0
    · exact hu.trans (gocTags_user _ _ _).symm
  · intro howned t ht
    cases h : vd'.tags with
    | none =>
        simp only [update, h] at ht ⊢
        exact howned t ht
    | some names =>
        simp only [update, h] at ht ⊢
        rcases gocTags_mem_fwd names db { r with tags := [] } t ht with
          h0 | ⟨_, hu, _⟩
        · simp at h0
        · exact hu.trans (gocTags_user names db { r with tags := [] }).symm

theorem recipe_tags_owned_by_recipe_user_witness :
    TagsOwned rW ∧
    tagVeg.user = (create dbW 7 10 vdW3).1.user ∧
    tagLunch.user = (update dbW rW vdW).1.user :=
  ⟨by decide,
    (recipe_tags_owned_by_recipe_user dbW 7 10 vdW3 rW vdW).1 tagVeg
      (by decide),
    (recipe_tags_owned_by_recipe_user dbW 7 10 vdW3 rW vdW).2 (by decide)
      tagLunch (by decide)⟩

/-- C7 (counterexample): a create request that omits the tags field is NOT
accepted — the declared field `tags = TagSerializer(many=True, required=True)`
makes validation fail with a field-level error, contradicting the claim that
the tags field is optional in the create input schema. -/
theorem create_omitting_tags_rejected :
    isAccepted (validate_create rawNoTags) = false := rfl

/-- C7 (amended): on recipe create, the tags field is required in the input
schema (`required=True`): a create request that omits the tags field is
rejected with a validation error, while a create request with an empty tags
list is accepted and produces a recipe with an empty tag set (and had the
field been absent from validated data, `create` would default it to an empty
list). -/
theorem create_tags_required (i : RawRecipeInput) (db : DB) (u newId : Nat)
    (vd : CreateInput) :
    (i.tags = none →
      validate_create i = Except.error "tags: This field is required.") ∧
    (i.tags = some [] →
      validate_create i =
        Except.ok ⟨i.title, i.time_minutes, i.price, i.link, i.description,
          some []⟩) ∧
    (vd.tags = some [] → (create db u newId vd).1.tags = []) ∧
    (vd.tags = none → (create db u newId vd).1.tags = []) := by
  refine ⟨fun h => by simp [validate_create, h, tags_required],
    fun h => by simp [validate_create, h],
    fun h => by simp [create, h, getOrCreateTags],
    fun h => by simp [create, h, getOrCreateTags]⟩

theorem create_tags_required_witness :
    rawNoTags.tags = none ∧ rawEmptyTags.tags = some [] ∧
    vdEmptyTags.tags = some [] ∧
    validate_create rawNoTags =
      Except.error "tags: This field is required." ∧
    validate_create rawEmptyTags =
      Except.ok ⟨"Chocolate Cake", 30, "10.00", "", "", some []⟩ ∧
    (create dbW 7 10 vdEmptyTags).1.tags = [] :=
  ⟨rfl, rfl, rfl,
    (create_tags_required rawNoTags dbW 7 10 vdEmptyTags).1 rfl,
    (create_tags_required rawEmptyTags dbW 7 10 vdEmptyTags).2.1 rfl,
    (create_tags_required rawEmptyTags dbW 7 10 vdEmptyTags).2.2.1 rfl⟩

/-- C8: for every recipe update, each non-tag field present in the validated
input is assigned directly onto the record and the record is then persisted,
while every field absent from the validated input retains its previous
value. -/
theorem update_scalar_field_assignment (db : DB) (r : Recipe)
    (vd : UpdateInput) :
    (update db r vd).1.title = vd.title.getD r.title ∧
    (update db r vd).1.time_minutes = vd.time_minutes.getD r.time_minutes ∧
    (update db r vd).1.price = vd.price.getD r.price ∧
    (update db r vd).1.link = vd.link.getD r.link ∧
    (update db r vd).1.description = vd.description.getD r.description ∧
    (update db r vd).1.id = r.id ∧
    (update db r vd).1.user = r.user := by
  cases h : vd.tags with
  | none => simp [update, h]
  | some names =>
      have hf := gocTags_fields names db { r with tags := [] }
      refine ⟨?_, ?_, ?_, ?_, ?_, ?_, ?_⟩ <;> simp only [update, h] <;>
        rw [hf]

/-- C9: the summary (list) serialization of a recipe contains the fields id,
title, time_minutes, price, link and tags but never the description, while the
detail serialization contains all of those fields plus the description. -/
theorem serializer_field_sets (r : Recipe) :
    objKeys (serialize_recipe r) = recipe_fields ∧
    "description" ∉ objKeys (serialize_recipe r) ∧
    objKeys (serialize_recipe_detail r) = recipe_detail_fields ∧
    "description" ∈ objKeys (serialize_recipe_detail r) ∧
    recipe_detail_fields = recipe_fields ++ ["description"] :=
  ⟨rfl, by simp [serialize_recipe, objKeys], rfl,
    by simp [serialize_recipe_detail, objKeys], rfl⟩

/-- C10: the serialized representation of a tag contains exactly the fields id
and name; the owning user is never included in serialized output, and the id
field is read-only: client-supplied ids in tag payloads are dropped by
validation, so tags are matched by name only. -/
theorem tag_serializer_shape (t : Tag) (n : String) (i₁ i₂ : Option Nat)
    (ts : List TagInput) :
    objKeys (serialize_tag t) = tag_fields ∧
    "user" ∉ objKeys (serialize_tag t) ∧
    validated_tag ⟨i₁, n⟩ = validated_tag ⟨i₂, n⟩ ∧
    ts.map validated_tag = ts.map TagInput.name :=
  ⟨rfl, by simp [serialize_tag, objKeys], rfl, rfl⟩

end RecipeApp
